import Mathlib

/-!
# Verification of the `rust-audit` build-time audit pipeline

A shallow embedding of `auditable-build/src/lib.rs` (the `auditable-build`
crate of the `rust-audit` repository) together with proofs of the
specification's testable properties.

The source reads the process environment (`OUT_DIR`, `PROFILE`, `TARGET`,
`CARGO_MANIFEST_DIR`, and the `CARGO_FEATURE_*` variables), invokes the
external `cargo metadata` resolver twice, reconstructs the enabled feature
set of the root package from the mangled `CARGO_FEATURE_*` variables,
serializes the resolved dependency graph to JSON, compresses it with zlib
and writes it to a file.

Modelling conventions:

* The environment is an explicit association list of variable names and
  values; `env::var` is a lookup and `env::vars()` iterates the list.
* Functions that can panic in Rust (`unwrap`, `panic!`) return
  `Except String α`; the error string is the corresponding Rust panic
  message.
* The external resolver (`MetadataCommand::exec`) is a parameter of type
  `ResolverCall → ResolvedGraph`; each invocation of the pipeline records
  the calls it makes so that call-trace properties can be stated.
* External collaborators whose code is not part of this repository
  (miniz_oxide's zlib compressor, the `auditable-serde`/`serde_json`
  serialization, and the resolver's platform filtering) are modelled from
  the specification; their definitions carry a doc comment starting with
  `Modelled from the spec:`.
-/

/-- The process environment: an association list of variable names and
values, as surfaced to a Cargo build script. -/
structure Env where
  vars : List (String × String)
deriving DecidableEq

/-- First-match lookup in an association list; models `std::env::var`. -/
def lookupVar (name : String) : List (String × String) → Option String
  | [] => none
  | (n, v) :: rest => if n = name then some v else lookupVar name rest

/-- `std::env::var(name)` for the modelled environment. -/
def Env.var (e : Env) (name : String) : Option String :=
  lookupVar name e.vars

/-- The Rust panic message of `Result::unwrap()` applied to
`env::var(..)`'s `Err(VarError::NotPresent)`. -/
def envUnwrapMsg : String :=
  "called `Result::unwrap()` on an `Err` value: NotPresent"

/-- The Rust panic message of `Option::unwrap()` on `None`. -/
def optionUnwrapMsg : String :=
  "called `Option::unwrap()` on a `None` value"

/-- `char::to_ascii_uppercase`: ASCII lowercase letters are mapped to
uppercase, every other character is unchanged. -/
def toAsciiUpper (c : Char) : Char :=
  if 'a' ≤ c ∧ c ≤ 'z' then Char.ofNat (c.toNat - 32) else c

/-- One character of `str::replace("-", "_")`. -/
def replaceDash (c : Char) : Char :=
  if c = '-' then '_' else c

/-- The feature-name mangling used in `enabled_features`:
`feature.to_ascii_uppercase().replace("-", "_")`. -/
def mangle (s : String) : String :=
  ⟨(s.data.map toAsciiUpper).map replaceDash⟩

/-- Fuel-indexed core of `str::trim_start_matches`: repeatedly removes the
pattern `p` from the front as long as it is a prefix.  Each removal strips
at least one character, so fuel equal to the length of the string makes the
fuel bound unreachable. -/
def trimStartMatchesAux (p : List Char) : Nat → List Char → List Char
  | 0, s => s
  | fuel + 1, s =>
    if p.isPrefixOf s ∧ p ≠ [] then trimStartMatchesAux p fuel (s.drop p.length)
    else s

/-- `str::trim_start_matches`: all leading occurrences of the pattern are
removed, not just the first. -/
def trimStartMatches (p s : String) : String :=
  ⟨trimStartMatchesAux p.data s.data.length s.data⟩

/-- `enabled_uppercase_features`: collect, from every environment variable
whose name strictly extends `CARGO_FEATURE_`, the name with all leading
`CARGO_FEATURE_` occurrences stripped.  Values are never inspected.  The
Rust code stores the result in a `HashSet`; the model keeps a list and
only ever uses membership, which makes duplicates and order irrelevant.
(The Rust length test is on UTF-8 bytes; under the prefix conjunct the two
coincide, since the prefix itself is ASCII.) -/
def enabled_uppercase_features (env : Env) : List String :=
  (env.vars.filter (fun pv =>
      decide ("CARGO_FEATURE_".length < pv.1.length) &&
      "CARGO_FEATURE_".data.isPrefixOf pv.1.data)).map
    (fun pv => trimStartMatches "CARGO_FEATURE_" pv.1)

/-- The loop body of `enabled_features`: keep every declared feature whose
mangled form is contained in the token set. -/
def reconstructFeatures (declared tokens : List String) : List String :=
  declared.filter (fun f => tokens.contains (mangle f))

/-- The part of a `cargo_metadata::MetadataCommand` that
`metadata_command` configures: manifest path and extra options. -/
structure MetadataCommand where
  manifest_path : String
  other_options : List String
deriving DecidableEq

/-- The feature selection applied to the final resolver call:
`CargoOpt::SomeFeatures(features)` plus an optional
`CargoOpt::NoDefaultFeatures`. -/
structure CapabilitySelection where
  features : List String
  no_default_features : Bool
deriving DecidableEq

/-- One invocation of the external resolver: the configured command plus
the capability selection applied to it (`none` for the discovery call,
which applies no feature filter). -/
structure ResolverCall where
  cmd : MetadataCommand
  selection : Option CapabilitySelection
deriving DecidableEq

/-- A package of the resolver's output.  `id`, `name`, `version`, `source`
and the declared `features` map mirror `cargo_metadata::Package`.
`resolved_features` and `platforms` are resolver outputs the repository
only consumes: the per-package enabled features computed by the resolver's
unification, and the target platforms the package is relevant to (used by
the spec-modelled platform filtering). -/
structure Package where
  id : String
  name : String
  version : String
  source : String
  features : List (String × List String)
  resolved_features : List String
  platforms : List String
deriving DecidableEq

/-- `cargo_metadata::Resolve`, reduced to the field the source reads. -/
structure Resolve where
  root : Option String
deriving DecidableEq

/-- `cargo_metadata::Metadata`, reduced to the fields the source reads. -/
structure ResolvedGraph where
  packages : List Package
  resolve : Option Resolve
deriving DecidableEq

/-- `metadata_command()`: reads `CARGO_MANIFEST_DIR` and `TARGET`, sets
the manifest path to `<dir>/Cargo.toml` and passes
`--filter-platform=<target>`. -/
def metadata_command (env : Env) : Except String MetadataCommand :=
  match env.var "CARGO_MANIFEST_DIR" with
  | none => .error envUnwrapMsg
  | some dir =>
    match env.var "TARGET" with
    | none => .error envUnwrapMsg
    | some target =>
      .ok ⟨dir ++ "/Cargo.toml", ["--filter-platform=" ++ target]⟩

/-- `enabled_features()`: reads the mangled token set from the
environment, performs the dry-run (discovery) resolver call with no
feature filter, locates the root package, and keeps exactly the declared
features whose mangled form is in the token set.  Returns the
reconstructed list together with the discovery call that was made. -/
def enabled_features (env : Env) (resolver : ResolverCall → ResolvedGraph) :
    Except String (List String × ResolverCall) :=
  match metadata_command env with
  | .error e => .error e
  | .ok cmd =>
    match (resolver ⟨cmd, none⟩).resolve with
    | none => .error optionUnwrapMsg
    | some res =>
      match res.root with
      | none => .error optionUnwrapMsg
      | some root_id =>
        match ((resolver ⟨cmd, none⟩).packages.filter
            (fun p => p.id = root_id)).head? with
        | none => .error optionUnwrapMsg
        | some root_pkg =>
          .ok (reconstructFeatures (root_pkg.features.map Prod.fst)
                (enabled_uppercase_features env),
               ⟨cmd, none⟩)

/-- `Vec::remove` at the index found by `position(|x| x == "default")`:
removes the first occurrence only. -/
def removeFirst (x : String) : List String → List String
  | [] => []
  | y :: ys => if y = x then ys else y :: removeFirst x ys

/-- The feature post-processing of `get_metadata`: if `"default"` occurs
in the reconstructed list its first occurrence is removed, otherwise
`NoDefaultFeatures` is passed. -/
def capability_selection (features : List String) : CapabilitySelection :=
  if features.contains "default" then ⟨removeFirst "default" features, false⟩
  else ⟨features, true⟩

/-- `get_metadata()`: builds the command, reconstructs the feature list
(which performs the discovery call), applies the `"default"` special case
and performs the final resolver call.  Returns the final graph together
with the trace of resolver calls performed, in order. -/
def get_metadata (env : Env) (resolver : ResolverCall → ResolvedGraph) :
    Except String (ResolvedGraph × List ResolverCall) :=
  match metadata_command env with
  | .error e => .error e
  | .ok cmd =>
    match enabled_features env resolver with
    | .error e => .error e
    | .ok (features, call1) =>
      .ok (resolver ⟨cmd, some (capability_selection features)⟩,
           [call1, ⟨cmd, some (capability_selection features)⟩])

/-- `choose_compression_level()`: `debug` builds compress at level 1,
`release` builds at level 7, anything else panics with
`Unknown build profile`. -/
def choose_compression_level (env : Env) : Except String Nat :=
  match env.var "PROFILE" with
  | none => .error envUnwrapMsg
  | some build_profile =>
    if build_profile = "debug" then .ok 1
    else if build_profile = "release" then .ok 7
    else .error ("Unknown build profile: " ++ build_profile)

/-- The highest compression effort accepted by the compressor
(miniz_oxide accepts levels 0 through 10). -/
def maxCompressionEffort : Nat := 10

/-- `output_file_path()`: `<OUT_DIR>/dependency-list.json.zlib`. -/
def output_file_path (env : Env) : Except String String :=
  match env.var "OUT_DIR" with
  | none => .error envUnwrapMsg
  | some out_dir => .ok (out_dir ++ "/dependency-list.json.zlib")

/-- Modelled from the spec: one entry of the external `VersionInfo`
schema (the `auditable-serde` crate) — name, version, source origin and
the capabilities enabled for that specific component. -/
structure RecordEntry where
  name : String
  version : String
  source : String
  features : List String
deriving DecidableEq

/-- Modelled from the spec: `VersionInfo::try_from(&Metadata)` — a pure
transform emitting one tuple per resolved component, with the per-component
enabled capabilities determined by the resolver's own unification. -/
def version_info (g : ResolvedGraph) : List RecordEntry :=
  g.packages.map (fun p => ⟨p.name, p.version, p.source, p.resolved_features⟩)

/-- One character of JSON string escaping. -/
def jsonEscapeChar (c : Char) : List Char :=
  if c = '"' ∨ c = '\\' then ['\\', c] else [c]

/-- A JSON string literal. -/
def jsonString (s : String) : String :=
  "\"" ++ ⟨s.data.flatMap jsonEscapeChar⟩ ++ "\""

/-- Comma-separated concatenation. -/
def commaSep : List String → String
  | [] => ""
  | [x] => x
  | x :: xs => x ++ "," ++ commaSep xs

/-- Modelled from the spec: the canonical textual interchange form of one
record entry (`serde_json::to_string`). -/
def serializeEntry (e : RecordEntry) : String :=
  "\x7b\"name\":" ++ jsonString e.name ++
  ",\"version\":" ++ jsonString e.version ++
  ",\"source\":" ++ jsonString e.source ++
  ",\"features\":[" ++ commaSep (e.features.map jsonString) ++ "]\x7d"

/-- Modelled from the spec: the canonical textual interchange form of an
audit record (`serde_json::to_string` of a `VersionInfo`). -/
def serialize (r : List RecordEntry) : String :=
  "[" ++ commaSep (r.map serializeEntry) ++ "]"

/-- The byte sequence of a serialized record, as natural numbers. -/
def strBytes (s : String) : List Nat :=
  s.data.map Char.toNat

/-- The longest run the compressor searches for at a given effort level:
higher effort looks further (capped so a run fits in one count byte). -/
def maxRun (level : Nat) : Nat := min (2 ^ level) 254

/-- Length of the run of bytes equal to `b` at the front of the list,
searching at most `limit` positions. -/
def countRun (b : Nat) : Nat → List Nat → Nat
  | 0, _ => 0
  | _, [] => 0
  | limit + 1, x :: xs => if x = b then countRun b limit xs + 1 else 0

/-- Fuel-indexed run-length encoder: emits `count, byte` pairs.  Each step
consumes at least one input byte, so fuel equal to the input length makes
the fuel bound unreachable. -/
def encodeRuns (level : Nat) : Nat → List Nat → List Nat
  | _, [] => []
  | 0, _ :: _ => []
  | fuel + 1, b :: rest =>
    let n := countRun b (maxRun level) rest
    (n + 1) :: b :: encodeRuns level fuel (rest.drop n)

/-- Decoder for `encodeRuns` output: replays each `count, byte` pair. -/
def decodeRuns : List Nat → List Nat
  | [] => []
  | [_] => []
  | n :: b :: rest => List.replicate n b ++ decodeRuns rest

/-- Modelled from the spec: `miniz_oxide::deflate::compress_to_vec_zlib`,
the external general-purpose lossless compressor — a deterministic,
effort-parameterized encoder behind a two-byte zlib-style header whose
second byte reflects the effort level. -/
def compress_to_vec_zlib (data : List Nat) (level : Nat) : List Nat :=
  120 :: level :: encodeRuns level data.length data

/-- Modelled from the spec: the matching decompressor available to any
consumer holding only the bytes (miniz_oxide's inflate). -/
def decompress_to_vec_zlib (bytes : List Nat) : List Nat :=
  decodeRuns (bytes.drop 2)

/-- `collect_dependency_list()`: the full pipeline — final resolver
metadata, audit-record construction, serialization, compression at the
profile-selected level, and the output path.  Returns the compressed
artifact bytes, the path written to, and the trace of resolver calls. -/
def collect_dependency_list (env : Env) (resolver : ResolverCall → ResolvedGraph) :
    Except String (List Nat × String × List ResolverCall) :=
  match get_metadata env resolver with
  | .error e => .error e
  | .ok (metadata, calls) =>
    match choose_compression_level env with
    | .error e => .error e
    | .ok level =>
      match output_file_path env with
      | .error e => .error e
      | .ok path =>
        .ok (compress_to_vec_zlib (strBytes (serialize (version_info metadata))) level,
             path, calls)

/-! ## Supporting lemmas -/

/-- Membership characterization of the reconstruction loop. -/
theorem mem_reconstructFeatures {D T : List String} {c : String} :
    c ∈ reconstructFeatures D T ↔ c ∈ D ∧ mangle c ∈ T := by
  simp [reconstructFeatures, List.mem_filter, List.elem_iff]

/-- The counted run really is a run: the list splits into `countRun` copies
of `b` followed by the corresponding drop. -/
theorem countRun_append (b : Nat) :
    ∀ (limit : Nat) (l : List Nat),
      List.replicate (countRun b limit l) b ++ l.drop (countRun b limit l) = l := by
  intro limit
  induction limit with
  | zero => intro l; simp [countRun]
  | succ k ih =>
    intro l
    cases l with
    | nil => simp [countRun]
    | cons x xs =>
      by_cases hx : x = b
      · subst hx
        simp only [countRun, if_pos rfl, List.replicate_succ, List.cons_append,
          List.drop_succ_cons]
        exact congrArg (x :: ·) (ih xs)
      · simp [countRun, hx]

/-- Decoding inverts encoding, given enough fuel. -/
theorem decodeRuns_encodeRuns (level : Nat) :
    ∀ (fuel : Nat) (data : List Nat), data.length ≤ fuel →
      decodeRuns (encodeRuns level fuel data) = data := by
  intro fuel
  induction fuel with
  | zero =>
    intro data h
    have : data = [] := List.eq_nil_of_length_eq_zero (Nat.le_zero.mp h)
    subst this
    simp [encodeRuns, decodeRuns]
  | succ f ih =>
    intro data h
    cases data with
    | nil => simp [encodeRuns, decodeRuns]
    | cons b rest =>
      simp only [encodeRuns, decodeRuns]
      have hlen : (rest.drop (countRun b (maxRun level) rest)).length ≤ f := by
        have h1 : rest.length ≤ f := Nat.le_of_succ_le_succ h
        calc (rest.drop (countRun b (maxRun level) rest)).length
            ≤ rest.length := by simp [List.length_drop]
          _ ≤ f := h1
      rw [ih _ hlen, List.replicate_succ, List.cons_append]
      exact congrArg (b :: ·) (countRun_append b (maxRun level) rest)

/-- The modelled compressor is lossless at every effort level. -/
theorem decompress_compress (data : List Nat) (level : Nat) :
    decompress_to_vec_zlib (compress_to_vec_zlib data level) = data := by
  simp only [compress_to_vec_zlib, decompress_to_vec_zlib, List.drop_succ_cons,
    List.drop_zero]
  exact decodeRuns_encodeRuns level data.length data le_rfl

/-- Removing the first occurrence from a duplicate-free list removes every
occurrence. -/
theorem not_mem_removeFirst {x : String} :
    ∀ {l : List String}, l.Nodup → x ∉ removeFirst x l := by
  intro l
  induction l with
  | nil => intro _ h; simp [removeFirst] at h
  | cons y ys ih =>
    intro hnd
    rw [List.nodup_cons] at hnd
    by_cases hy : y = x
    · subst hy
      simp only [removeFirst, if_pos rfl]
      exact hnd.1
    · simp only [removeFirst, if_neg hy, List.mem_cons]
      intro hmem
      rcases hmem with h | h
      · exact hy h.symm
      · exact ih hnd.2 h

/-- The `"default"` special case never lets `"default"` through to the
final call, provided the feature list is duplicate-free (it is: it is a
filter of the keys of the root package's feature map). -/
theorem capability_selection_default_not_mem {features : List String}
    (hnd : features.Nodup) :
    "default" ∉ (capability_selection features).features := by
  by_cases hc : features.contains "default"
  · simp only [capability_selection, if_pos hc]
    exact not_mem_removeFirst hnd
  · simp only [capability_selection, if_neg hc]
    intro hmem
    exact hc (List.elem_iff.mpr hmem)

/-- The disable-implicit-defaults flag is set exactly when `"default"` is
absent from the reconstructed feature list. -/
theorem capability_selection_flag {features : List String} :
    (capability_selection features).no_default_features = true ↔
      "default" ∉ features := by
  by_cases hc : features.contains "default"
  · simp only [capability_selection, if_pos hc]
    simp [List.elem_iff.mp hc]
  · simp only [capability_selection, if_neg hc]
    simp only [true_iff]
    intro hmem
    exact hc (List.elem_iff.mpr hmem)

/-- A successful `metadata_command` means both of its environment
variables are present, and fixes the command it builds. -/
theorem metadata_command_ok_inv {env : Env} {cmd : MetadataCommand}
    (h : metadata_command env = .ok cmd) :
    ∃ dir target, env.var "CARGO_MANIFEST_DIR" = some dir ∧
      env.var "TARGET" = some target ∧
      cmd = ⟨dir ++ "/Cargo.toml", ["--filter-platform=" ++ target]⟩ := by
  unfold metadata_command at h
  cases hd : env.var "CARGO_MANIFEST_DIR" with
  | none => rw [hd] at h; exact absurd h (by simp)
  | some dir =>
    rw [hd] at h
    cases ht : env.var "TARGET" with
    | none => rw [ht] at h; exact absurd h (by simp)
    | some target =>
      rw [ht] at h
      exact ⟨dir, target, rfl, rfl, (Except.ok.injEq .. ▸ h).symm⟩

/-- A successful `enabled_features` call fixes the discovery call (built
from `metadata_command`, with no feature filter) and exhibits the returned
list as the reconstruction of the root package's declared features against
the environment's token set. -/
theorem enabled_features_ok_inv {env : Env}
    {resolver : ResolverCall → ResolvedGraph}
    {features : List String} {call1 : ResolverCall}
    (h : enabled_features env resolver = .ok (features, call1)) :
    ∃ cmd root_pkg,
      metadata_command env = .ok cmd ∧
      call1 = ⟨cmd, none⟩ ∧
      root_pkg ∈ (resolver ⟨cmd, none⟩).packages ∧
      features = reconstructFeatures (root_pkg.features.map Prod.fst)
        (enabled_uppercase_features env) := by
  unfold enabled_features at h
  split at h
  · exact absurd h (by simp)
  next cmd heq =>
    split at h
    · exact absurd h (by simp)
    next res heq2 =>
      split at h
      · exact absurd h (by simp)
      next root_id heq3 =>
        split at h
        · exact absurd h (by simp)
        next root_pkg heq4 =>
          simp only [Except.ok.injEq, Prod.mk.injEq] at h
          refine ⟨cmd, root_pkg, heq, h.2.symm, ?_, h.1.symm⟩
          have hmem := List.mem_of_mem_head? (Option.mem_def.mpr heq4)
          exact (List.mem_filter.mp hmem).1

/-- A successful `get_metadata` decomposes into exactly the two resolver
calls: the discovery call and the final call carrying the capability
selection derived from the reconstructed features. -/
theorem get_metadata_ok_inv {env : Env}
    {resolver : ResolverCall → ResolvedGraph}
    {g : ResolvedGraph} {calls : List ResolverCall}
    (h : get_metadata env resolver = .ok (g, calls)) :
    ∃ cmd features,
      metadata_command env = .ok cmd ∧
      enabled_features env resolver = .ok (features, ⟨cmd, none⟩) ∧
      calls = [⟨cmd, none⟩, ⟨cmd, some (capability_selection features)⟩] ∧
      g = resolver ⟨cmd, some (capability_selection features)⟩ := by
  unfold get_metadata at h
  cases hm : metadata_command env with
  | error e => rw [hm] at h; exact absurd h (by simp)
  | ok cmd =>
    rw [hm] at h
    cases hf : enabled_features env resolver with
    | error e => rw [hf] at h; exact absurd h (by simp)
    | ok fc =>
      obtain ⟨features, call1⟩ := fc
      rw [hf] at h
      simp only [Except.ok.injEq, Prod.mk.injEq] at h
      obtain ⟨cmd', root_pkg, hm', hc1, -, -⟩ := enabled_features_ok_inv hf
      have hcmd : cmd' = cmd := by
        rw [hm] at hm'
        exact (Except.ok.inj hm').symm
      subst hcmd
      subst hc1
      exact ⟨cmd', features, rfl, rfl, h.2.symm, h.1.symm⟩

/-- A successful `choose_compression_level` means `PROFILE` is present. -/
theorem choose_compression_level_ok_inv {env : Env} {level : Nat}
    (h : choose_compression_level env = .ok level) :
    ∃ p, env.var "PROFILE" = some p := by
  unfold choose_compression_level at h
  cases hp : env.var "PROFILE" with
  | none => rw [hp] at h; exact absurd h (by simp)
  | some p => exact ⟨p, rfl⟩

/-- A successful `output_file_path` means `OUT_DIR` is present. -/
theorem output_file_path_ok_inv {env : Env} {path : String}
    (h : output_file_path env = .ok path) :
    ∃ o, env.var "OUT_DIR" = some o := by
  unfold output_file_path at h
  cases ho : env.var "OUT_DIR" with
  | none => rw [ho] at h; exact absurd h (by simp)
  | some o => exact ⟨o, rfl⟩

/-- A successful pipeline run means every required environment variable
was present. -/
theorem collect_dependency_list_ok_inv {env : Env}
    {resolver : ResolverCall → ResolvedGraph}
    {out : List Nat × String × List ResolverCall}
    (h : collect_dependency_list env resolver = .ok out) :
    (∃ o, env.var "OUT_DIR" = some o) ∧
    (∃ p, env.var "PROFILE" = some p) ∧
    (∃ t, env.var "TARGET" = some t) ∧
    (∃ d, env.var "CARGO_MANIFEST_DIR" = some d) := by
  unfold collect_dependency_list at h
  cases hg : get_metadata env resolver with
  | error e => rw [hg] at h; exact absurd h (by simp)
  | ok gc =>
    obtain ⟨g, calls⟩ := gc
    rw [hg] at h
    simp only at h
    cases hl : choose_compression_level env with
    | error e => rw [hl] at h; exact absurd h (by simp)
    | ok level =>
      rw [hl] at h
      cases ho : output_file_path env with
      | error e => rw [ho] at h; exact absurd h (by simp)
      | ok path =>
        obtain ⟨cmd, features, hm, -, -, -⟩ := get_metadata_ok_inv hg
        obtain ⟨dir, target, hd, ht, -⟩ := metadata_command_ok_inv hm
        exact ⟨output_file_path_ok_inv ho,
          choose_compression_level_ok_inv hl, ⟨target, ht⟩, ⟨dir, hd⟩⟩

/-! ## Claim theorems -/

/-- C1: for every declared capability list `D` of the root component and
every mangled-token set `T`, the reconstructed capability set is a subset
of `D`, and a capability `c ∈ D` is reconstructed if and only if its
mangled form (ASCII-uppercase, hyphen replaced by underscore) is a member
of `T`. -/
theorem reconstruct_subset_and_mem_iff (D T : List String) :
    reconstructFeatures D T ⊆ D ∧
    ∀ c, c ∈ D → (c ∈ reconstructFeatures D T ↔ mangle c ∈ T) := by
  constructor
  · intro c hc
    exact (mem_reconstructFeatures.mp hc).1
  · intro c hc
    constructor
    · intro h
      exact (mem_reconstructFeatures.mp h).2
    · intro h
      exact mem_reconstructFeatures.mpr ⟨hc, h⟩

/-- Witness for C1 at a concrete declared list and token set. -/
theorem reconstruct_subset_and_mem_iff_witness :
    "net-client" ∈ reconstructFeatures ["net-client", "LOGGING"] ["NET_CLIENT"] ↔
      mangle "net-client" ∈ ["NET_CLIENT"] :=
  (reconstruct_subset_and_mem_iff ["net-client", "LOGGING"] ["NET_CLIENT"]).2
    "net-client" (by decide)

/-- C4: two declared capabilities with different names but identical
mangled forms are both reconstructed as enabled whenever the shared
mangled form is in the token set. -/
theorem collision_both_enabled (D T : List String) (a b : String)
    (ha : a ∈ D) (hb : b ∈ D) (_hne : a ≠ b) (hcol : mangle a = mangle b)
    (htok : mangle a ∈ T) :
    a ∈ reconstructFeatures D T ∧ b ∈ reconstructFeatures D T := by
  refine ⟨mem_reconstructFeatures.mpr ⟨ha, htok⟩,
    mem_reconstructFeatures.mpr ⟨hb, ?_⟩⟩
  rw [← hcol]
  exact htok

/-- Witness for C4: `net-client` and `net_client` both mangle to
`NET_CLIENT`; with that token present both are reconstructed. -/
theorem collision_both_enabled_witness :
    "net-client" ∈ reconstructFeatures ["net-client", "net_client"] ["NET_CLIENT"] ∧
    "net_client" ∈ reconstructFeatures ["net-client", "net_client"] ["NET_CLIENT"] :=
  collision_both_enabled ["net-client", "net_client"] ["NET_CLIENT"]
    "net-client" "net_client" (by decide) (by decide) (by decide) (by decide)
    (by decide)

/-- C5: for every audit record and every compression level the profile
selection can produce (both tiers), decompressing the compressed
serialization yields exactly the original serialization. -/
theorem decompress_compress_serialize (record : List RecordEntry)
    (env : Env) (level : Nat)
    (_h : choose_compression_level env = .ok level) :
    decompress_to_vec_zlib
        (compress_to_vec_zlib (strBytes (serialize record)) level) =
      strBytes (serialize record) :=
  decompress_compress (strBytes (serialize record)) level

/-- Witness for C5 at a one-entry record and the release tier. -/
theorem decompress_compress_serialize_witness :
    decompress_to_vec_zlib
        (compress_to_vec_zlib
          (strBytes (serialize [⟨"libc", "0.2.71", "registry", ["std"]⟩])) 7) =
      strBytes (serialize [⟨"libc", "0.2.71", "registry", ["std"]⟩]) :=
  decompress_compress_serialize [⟨"libc", "0.2.71", "registry", ["std"]⟩]
    ⟨[("PROFILE", "release")]⟩ 7 (by rfl)

/-- C6: compression-level selection is total on exactly the two profiles:
`debug` yields the low tier 1, `release` yields the higher tier 7 (with
1 < 7 and 7 strictly below the compressor's maximum effort), and any other
profile value is a fatal configuration error naming the offending value. -/
theorem choose_compression_level_total (env : Env) (p : String)
    (h : env.var "PROFILE" = some p) :
    (p = "debug" → choose_compression_level env = .ok 1) ∧
    (p = "release" → choose_compression_level env = .ok 7) ∧
    (p ≠ "debug" → p ≠ "release" →
      choose_compression_level env = .error ("Unknown build profile: " ++ p)) ∧
    1 < 7 ∧ 7 < maxCompressionEffort := by
  refine ⟨?_, ?_, ?_, by decide, by decide⟩
  · intro hp
    subst hp
    unfold choose_compression_level
    rw [h]
    rfl
  · intro hp
    subst hp
    unfold choose_compression_level
    rw [h]
    rfl
  · intro h1 h2
    unfold choose_compression_level
    rw [h]
    simp [h1, h2]

/-- Witness for C6 at a debug-profile environment. -/
theorem choose_compression_level_total_witness :
    choose_compression_level ⟨[("PROFILE", "debug")]⟩ = .ok 1 :=
  (choose_compression_level_total ⟨[("PROFILE", "debug")]⟩ "debug" (by rfl)).1 rfl

/-- C3: every successful pipeline run performs exactly two resolver
invocations — a discovery call with no capability filter (whose result is
consulted only for the root's declared features, via `enabled_features`),
followed by a final call against the same command that applies the
capability selection derived from the reconstructed feature set; the
record that is serialized and compressed is built from the final call's
graph. -/
theorem pipeline_two_resolver_calls (env : Env)
    (resolver : ResolverCall → ResolvedGraph)
    {bytes : List Nat} {path : String} {calls : List ResolverCall}
    (h : collect_dependency_list env resolver = .ok (bytes, path, calls)) :
    ∃ cmd features,
      metadata_command env = .ok cmd ∧
      enabled_features env resolver = .ok (features, ⟨cmd, none⟩) ∧
      calls = [⟨cmd, none⟩, ⟨cmd, some (capability_selection features)⟩] ∧
      ∃ level, choose_compression_level env = .ok level ∧
        bytes = compress_to_vec_zlib
          (strBytes (serialize (version_info
            (resolver ⟨cmd, some (capability_selection features)⟩)))) level := by
  unfold collect_dependency_list at h
  cases hg : get_metadata env resolver with
  | error e => rw [hg] at h; exact absurd h (by simp)
  | ok gc =>
    obtain ⟨g, calls'⟩ := gc
    rw [hg] at h
    simp only at h
    cases hl : choose_compression_level env with
    | error e => rw [hl] at h; exact absurd h (by simp)
    | ok level =>
      rw [hl] at h
      simp only at h
      cases ho : output_file_path env with
      | error e => rw [ho] at h; exact absurd h (by simp)
      | ok path' =>
        rw [ho] at h
        simp only [Except.ok.injEq, Prod.mk.injEq] at h
        obtain ⟨hbytes, -, hcalls⟩ := h
        obtain ⟨cmd, features, hm, hf, hc, hgr⟩ := get_metadata_ok_inv hg
        refine ⟨cmd, features, hm, hf, ?_, level, rfl, ?_⟩
        · rw [← hcalls]; exact hc
        · rw [← hbytes, hgr]

/-- Witness for C3: a concrete environment and resolver on which the
pipeline succeeds. -/
theorem pipeline_two_resolver_calls_witness :
    ∃ cmd features,
      metadata_command
          ⟨[("CARGO_MANIFEST_DIR", "/m"), ("TARGET", "t"),
            ("PROFILE", "debug"), ("OUT_DIR", "/o")]⟩ = .ok cmd ∧
      enabled_features
          ⟨[("CARGO_MANIFEST_DIR", "/m"), ("TARGET", "t"),
            ("PROFILE", "debug"), ("OUT_DIR", "/o")]⟩
          (fun _ => ⟨[⟨"rid", "root", "1.0.0", "path", [], [], []⟩],
            some ⟨some "rid"⟩⟩) = .ok (features, ⟨cmd, none⟩) ∧
      ∃ level,
        choose_compression_level
            ⟨[("CARGO_MANIFEST_DIR", "/m"), ("TARGET", "t"),
              ("PROFILE", "debug"), ("OUT_DIR", "/o")]⟩ = .ok level := by
  obtain ⟨cmd, features, h1, h2, -, level, h4, -⟩ :=
    pipeline_two_resolver_calls
      ⟨[("CARGO_MANIFEST_DIR", "/m"), ("TARGET", "t"),
        ("PROFILE", "debug"), ("OUT_DIR", "/o")]⟩
      (fun _ => ⟨[⟨"rid", "root", "1.0.0", "path", [], [], []⟩],
        some ⟨some "rid"⟩⟩) rfl
  exact ⟨cmd, features, h1, h2, level, h4⟩

/-- C2 (amended): `"default"` never appears in the capability set passed
to the second resolver call, and the disable-implicit-defaults flag is
passed exactly when the reconstructed capability set does not contain
`"default"` (equivalently, when the root does not declare `"default"` or
its mangled token is absent).  The duplicate-freedom hypothesis reflects
that the declared features come from the keys of a map. -/
theorem default_excluded_and_flag (env : Env)
    (resolver : ResolverCall → ResolvedGraph)
    {g : ResolvedGraph} {calls : List ResolverCall}
    {features : List String} {call1 : ResolverCall}
    (h : get_metadata env resolver = .ok (g, calls))
    (hf : enabled_features env resolver = .ok (features, call1))
    (hnd : features.Nodup) :
    ∃ cmd, calls = [call1, ⟨cmd, some (capability_selection features)⟩] ∧
      "default" ∉ (capability_selection features).features ∧
      ((capability_selection features).no_default_features = true ↔
        "default" ∉ features) := by
  obtain ⟨cmd, features', hm, hf', hcalls, -⟩ := get_metadata_ok_inv h
  rw [hf] at hf'
  have hpair := Except.ok.inj hf'
  have hfeat : features = features' := congrArg Prod.fst hpair
  have hcall : call1 = ⟨cmd, none⟩ := congrArg Prod.snd hpair
  subst hfeat
  rw [← hcall] at hcalls
  exact ⟨cmd, hcalls, capability_selection_default_not_mem hnd,
    capability_selection_flag⟩

/-- Witness for C2's amended statement: root declares `default`, the
`DEFAULT` token is present, so the flag is not passed and `default` is
stripped. -/
theorem default_excluded_and_flag_witness :
    "default" ∉ (capability_selection ["default"]).features ∧
    ((capability_selection ["default"]).no_default_features = true ↔
      "default" ∉ (["default"] : List String)) := by
  obtain ⟨cmd, -, h2, h3⟩ :=
    default_excluded_and_flag
      ⟨[("CARGO_MANIFEST_DIR", "/m"), ("TARGET", "t"),
        ("CARGO_FEATURE_DEFAULT", "1")]⟩
      (fun _ => ⟨[⟨"rid", "root", "1.0.0", "path",
        [("default", []), ("extra", [])], [], []⟩], some ⟨some "rid"⟩⟩)
      rfl rfl (by decide)
  exact ⟨h2, h3⟩

/-- C2 counterexample to the claim as stated: in an environment whose
token set contains `DEFAULT` but whose root package declares no features,
the disable-implicit-defaults flag is still passed to the second call —
so the flag is not equivalent to absence of the `DEFAULT` token. -/
theorem default_flag_counterexample :
    ∃ g calls,
      get_metadata
          ⟨[("CARGO_MANIFEST_DIR", "/m"), ("TARGET", "t"),
            ("CARGO_FEATURE_DEFAULT", "1")]⟩
          (fun _ => ⟨[⟨"rid", "root", "1.0.0", "path", [], [], []⟩],
            some ⟨some "rid"⟩⟩) = .ok (g, calls) ∧
      calls.map ResolverCall.selection = [none, some ⟨[], true⟩] ∧
      mangle "default" ∈ enabled_uppercase_features
        ⟨[("CARGO_MANIFEST_DIR", "/m"), ("TARGET", "t"),
          ("CARGO_FEATURE_DEFAULT", "1")]⟩ :=
  ⟨_, _, rfl, rfl, by decide⟩

/-- Modelled from the spec: the resolver is scoped to the single target
platform passed via `--filter-platform`; a package is kept only if one of
the platforms it is relevant to is the one named in the call's options. -/
def matches_platform (call : ResolverCall) (p : Package) : Bool :=
  p.platforms.any (fun t =>
    call.cmd.other_options.contains ("--filter-platform=" ++ t))

/-- Modelled from the spec: a resolver that performs mandatory platform
filtering over a universe of candidate packages and reports the given
root. -/
def spec_resolver (pkgs : List Package) (root_id : Option String)
    (call : ResolverCall) : ResolvedGraph :=
  ⟨pkgs.filter (matches_platform call), some ⟨root_id⟩⟩

/-- Appending on the left is cancellative for strings. -/
theorem string_append_cancel {a b c : String} (h : a ++ b = a ++ c) :
    b = c := by
  apply String.ext
  have h2 : a.data ++ b.data = a.data ++ c.data := congrArg String.data h
  exact List.append_cancel_left h2

/-- C7: both resolver invocations carry the same platform filter derived
from the build environment's `TARGET`, and (with the spec-modelled
platform-filtering resolver) every entry of the resulting audit record
comes from a package relevant to that target platform. -/
theorem platform_filter_consistent (env : Env) (pkgs : List Package)
    (root_id : Option String) (target : String)
    {g : ResolvedGraph} {calls : List ResolverCall}
    (ht : env.var "TARGET" = some target)
    (h : get_metadata env (spec_resolver pkgs root_id) = .ok (g, calls)) :
    (∀ c ∈ calls, c.cmd.other_options = ["--filter-platform=" ++ target]) ∧
    ∀ entry ∈ version_info g, ∃ p, p ∈ pkgs ∧ target ∈ p.platforms ∧
      entry = ⟨p.name, p.version, p.source, p.resolved_features⟩ := by
  obtain ⟨cmd, features, hm, -, hcalls, hg⟩ := get_metadata_ok_inv h
  obtain ⟨dir, target', hd, ht', hcmd⟩ := metadata_command_ok_inv hm
  have htgt : target' = target := by
    rw [ht] at ht'
    exact (Option.some.inj ht').symm
  rw [htgt] at hcmd
  have hopts : cmd.other_options = ["--filter-platform=" ++ target] := by
    rw [hcmd]
  constructor
  · intro c hc
    rw [hcalls] at hc
    rcases List.mem_pair.mp hc with h1 | h1 <;> subst h1 <;> exact hopts
  · intro entry hentry
    rw [hg] at hentry
    simp only [version_info, spec_resolver, List.mem_map] at hentry
    obtain ⟨p, hp, hentry⟩ := hentry
    rw [List.mem_filter] at hp
    obtain ⟨hpmem, hmatch⟩ := hp
    simp only [matches_platform, List.any_eq_true] at hmatch
    obtain ⟨t, htmem, htcon⟩ := hmatch
    have : "--filter-platform=" ++ t ∈ cmd.other_options :=
      List.elem_iff.mp htcon
    rw [hopts] at this
    have heq : "--filter-platform=" ++ t = "--filter-platform=" ++ target :=
      List.mem_singleton.mp this
    have : t = target := string_append_cancel heq
    subst this
    exact ⟨p, hpmem, htmem, hentry.symm⟩

/-- Witness for C7 at a two-package universe where only one package is
relevant to the target platform: the final call of that run carries the
target-derived platform filter. -/
theorem platform_filter_consistent_witness :
    (ResolverCall.mk ⟨"/m/Cargo.toml", ["--filter-platform=x86_64"]⟩
        (some ⟨[], true⟩)).cmd.other_options =
      ["--filter-platform=" ++ "x86_64"] := by
  have h :=
    @platform_filter_consistent
      ⟨[("CARGO_MANIFEST_DIR", "/m"), ("TARGET", "x86_64")]⟩
      [⟨"rid", "root", "1.0.0", "path", [], [], ["x86_64"]⟩,
       ⟨"oid", "other", "0.1.0", "registry", [], [], ["aarch64"]⟩]
      (some "rid") "x86_64"
      ⟨[⟨"rid", "root", "1.0.0", "path", [], [], ["x86_64"]⟩],
        some ⟨some "rid"⟩⟩
      [⟨⟨"/m/Cargo.toml", ["--filter-platform=x86_64"]⟩, none⟩,
       ⟨⟨"/m/Cargo.toml", ["--filter-platform=x86_64"]⟩, some ⟨[], true⟩⟩]
      rfl rfl
  exact h.1 _ (by decide)

/-- C8 counterexample to the claim as stated: with `OUT_DIR` absent the
pipeline aborts, but the panic message of `env::var(..).unwrap()` is the
generic `NotPresent` diagnostic — it does not name the missing
variable. -/
theorem missing_var_message_anonymous :
    output_file_path ⟨[]⟩ = .error envUnwrapMsg ∧
    ¬ ("OUT_DIR".data <:+: envUnwrapMsg.data) :=
  ⟨rfl, by decide⟩

/-- C8 (amended): if any of the four required environment variables is
absent, the pipeline aborts with a fatal error (the generic unwrap panic)
rather than silently producing a record with an empty capability set. -/
theorem missing_required_var_aborts (env : Env)
    (resolver : ResolverCall → ResolvedGraph)
    (h : env.var "OUT_DIR" = none ∨ env.var "PROFILE" = none ∨
         env.var "TARGET" = none ∨ env.var "CARGO_MANIFEST_DIR" = none) :
    ∃ msg, collect_dependency_list env resolver = .error msg := by
  cases hc : collect_dependency_list env resolver with
  | error e => exact ⟨e, rfl⟩
  | ok out =>
    exfalso
    obtain ⟨⟨o, ho⟩, ⟨p, hp⟩, ⟨t, ht⟩, ⟨d, hd⟩⟩ :=
      collect_dependency_list_ok_inv hc
    rcases h with h | h | h | h <;> simp_all

/-- Witness for C8's amended statement at the empty environment. -/
theorem missing_required_var_aborts_witness :
    ∃ msg, collect_dependency_list ⟨[]⟩ (fun _ => ⟨[], none⟩) = .error msg :=
  missing_required_var_aborts ⟨[]⟩ (fun _ => ⟨[], none⟩) (Or.inl rfl)

/-- C10 counterexample to the claim as stated: the variable
`CARGO_FEATURE_CARGO_FEATURE_FOO` strictly extends the `CARGO_FEATURE_`
pattern with suffix `CARGO_FEATURE_FOO`, yet the token set is `["FOO"]` —
the pattern is stripped repeatedly, not once. -/
theorem token_repeated_strip_counterexample :
    enabled_uppercase_features
        ⟨[("CARGO_FEATURE_CARGO_FEATURE_FOO", "1")]⟩ = ["FOO"] ∧
    ("CARGO_FEATURE_CARGO_FEATURE_FOO" : String) =
      "CARGO_FEATURE_" ++ "CARGO_FEATURE_FOO" ∧
    "CARGO_FEATURE_FOO" ∉
      enabled_uppercase_features
        ⟨[("CARGO_FEATURE_CARGO_FEATURE_FOO", "1")]⟩ :=
  ⟨rfl, rfl, by decide⟩

/-- C10 (amended): the token set consists of exactly the names of
environment variables that strictly extend `CARGO_FEATURE_`, with every
leading occurrence of `CARGO_FEATURE_` repeatedly stripped
(`trim_start_matches` semantics); variable values are ignored entirely,
and a variable named exactly `CARGO_FEATURE_` contributes nothing. -/
theorem token_set_characterization (env : Env) (s : String) :
    s ∈ enabled_uppercase_features env ↔
      ∃ n v, (n, v) ∈ env.vars ∧
        "CARGO_FEATURE_".length < n.length ∧
        "CARGO_FEATURE_".data.isPrefixOf n.data = true ∧
        s = trimStartMatches "CARGO_FEATURE_" n := by
  simp only [enabled_uppercase_features, List.mem_map, List.mem_filter,
    Bool.and_eq_true, decide_eq_true_eq]
  constructor
  · rintro ⟨⟨n, v⟩, ⟨hmem, hlen, hpre⟩, hs⟩
    exact ⟨n, v, hmem, hlen, hpre, hs.symm⟩
  · rintro ⟨n, v, hmem, hlen, hpre, hs⟩
    exact ⟨⟨n, v⟩, ⟨hmem, hlen, hpre⟩, hs.symm⟩

/-- A successful lookup produces a pair of the list. -/
theorem lookupVar_eq_some_mem {n v : String} :
    ∀ {l : List (String × String)}, lookupVar n l = some v → (n, v) ∈ l := by
  intro l
  induction l with
  | nil => intro h; exact absurd h (by simp [lookupVar])
  | cons hd tl ih =>
    obtain ⟨m, w⟩ := hd
    intro h
    unfold lookupVar at h
    by_cases hm : m = n
    · rw [if_pos hm] at h
      have : w = v := Option.some.inj h
      subst this
      subst hm
      exact List.mem_cons_self ..
    · rw [if_neg hm] at h
      exact List.mem_cons_of_mem _ (ih h)

/-- With duplicate-free keys, membership determines the lookup result. -/
theorem mem_lookupVar_of_nodup {n v : String} :
    ∀ {l : List (String × String)}, (l.map Prod.fst).Nodup →
      (n, v) ∈ l → lookupVar n l = some v := by
  intro l
  induction l with
  | nil => intro _ h; exact absurd h (by simp)
  | cons hd tl ih =>
    obtain ⟨m, w⟩ := hd
    intro hnd hm
    rw [List.map_cons, List.nodup_cons] at hnd
    rcases List.mem_cons.mp hm with he | he
    · obtain ⟨h1, h2⟩ := Prod.mk.inj he.symm
      subst h1
      subst h2
      simp [lookupVar]
    · have hmn : m ≠ n := by
        intro hcon
        subst hcon
        exact hnd.1 (List.mem_map.mpr ⟨(m, v), he, rfl⟩)
      unfold lookupVar
      rw [if_neg hmn]
      exact ih hnd.2 he

/-- A failed lookup means the key is absent. -/
theorem lookupVar_eq_none_iff {n : String} :
    ∀ {l : List (String × String)},
      lookupVar n l = none ↔ n ∉ l.map Prod.fst := by
  intro l
  induction l with
  | nil => simp [lookupVar]
  | cons hd tl ih =>
    obtain ⟨m, w⟩ := hd
    unfold lookupVar
    by_cases hm : m = n
    · subst hm
      simp
    · rw [if_neg hm]
      simp only [List.map_cons, List.mem_cons]
      rw [ih]
      constructor
      · intro h hc
        rcases hc with hc | hc
        · exact hm hc.symm
        · exact h hc
      · intro h hc
        exact h (Or.inr hc)

/-- Environment lookup only depends on the set of variables: permuting a
duplicate-free environment does not change any lookup. -/
theorem lookupVar_perm {l₁ l₂ : List (String × String)}
    (hp : l₁.Perm l₂) (hnd : (l₁.map Prod.fst).Nodup) (n : String) :
    lookupVar n l₁ = lookupVar n l₂ := by
  have hnd₂ : (l₂.map Prod.fst).Nodup := ((hp.map Prod.fst).nodup_iff).mp hnd
  cases h : lookupVar n l₁ with
  | some v =>
    exact (mem_lookupVar_of_nodup hnd₂
      (hp.mem_iff.mp (lookupVar_eq_some_mem h))).symm
  | none =>
    symm
    rw [lookupVar_eq_none_iff]
    intro hc
    exact (lookupVar_eq_none_iff.mp h) (((hp.map Prod.fst).mem_iff).mpr hc)

/-- Permuting the environment permutes the token list. -/
theorem tokens_perm {e₁ e₂ : Env} (hp : e₁.vars.Perm e₂.vars) :
    (enabled_uppercase_features e₁).Perm (enabled_uppercase_features e₂) :=
  (hp.filter _).map _

/-- Reconstruction only uses membership in the token set, so a permuted
token list reconstructs the same features. -/
theorem reconstructFeatures_perm_congr {T₁ T₂ : List String}
    (hp : T₁.Perm T₂) (D : List String) :
    reconstructFeatures D T₁ = reconstructFeatures D T₂ := by
  unfold reconstructFeatures
  apply List.filter_congr
  intro f _
  rw [Bool.eq_iff_iff]
  constructor
  · intro h
    exact List.elem_iff.mpr (hp.mem_iff.mp (List.elem_iff.mp h))
  · intro h
    exact List.elem_iff.mpr (hp.mem_iff.mpr (List.elem_iff.mp h))

/-- `metadata_command` only depends on the environment through lookups. -/
theorem metadata_command_congr {e₁ e₂ : Env}
    (hvar : ∀ n, e₁.var n = e₂.var n) :
    metadata_command e₁ = metadata_command e₂ := by
  unfold metadata_command
  rw [hvar "CARGO_MANIFEST_DIR", hvar "TARGET"]

/-- `choose_compression_level` only depends on the `PROFILE` lookup. -/
theorem choose_compression_level_congr {e₁ e₂ : Env}
    (hvar : ∀ n, e₁.var n = e₂.var n) :
    choose_compression_level e₁ = choose_compression_level e₂ := by
  unfold choose_compression_level
  rw [hvar "PROFILE"]

/-- `output_file_path` only depends on the `OUT_DIR` lookup. -/
theorem output_file_path_congr {e₁ e₂ : Env}
    (hvar : ∀ n, e₁.var n = e₂.var n) :
    output_file_path e₁ = output_file_path e₂ := by
  unfold output_file_path
  rw [hvar "OUT_DIR"]

/-- `enabled_features` only depends on the environment through lookups
and token-set membership. -/
theorem enabled_features_congr {e₁ e₂ : Env}
    (resolver : ResolverCall → ResolvedGraph)
    (hvar : ∀ n, e₁.var n = e₂.var n)
    (htok : (enabled_uppercase_features e₁).Perm
      (enabled_uppercase_features e₂)) :
    enabled_features e₁ resolver = enabled_features e₂ resolver := by
  unfold enabled_features
  rw [metadata_command_congr hvar]
  cases metadata_command e₂ with
  | error e => rfl
  | ok cmd =>
    simp only
    cases (resolver ⟨cmd, none⟩).resolve with
    | none => rfl
    | some res =>
      simp only
      cases res.root with
      | none => rfl
      | some root_id =>
        simp only
        cases ((resolver ⟨cmd, none⟩).packages.filter
            (fun p => p.id = root_id)).head? with
        | none => rfl
        | some root_pkg =>
          simp only [Except.ok.injEq, Prod.mk.injEq]
          exact ⟨reconstructFeatures_perm_congr htok _, trivial⟩

/-- `get_metadata` under a permuted environment. -/
theorem get_metadata_congr {e₁ e₂ : Env}
    (resolver : ResolverCall → ResolvedGraph)
    (hvar : ∀ n, e₁.var n = e₂.var n)
    (htok : (enabled_uppercase_features e₁).Perm
      (enabled_uppercase_features e₂)) :
    get_metadata e₁ resolver = get_metadata e₂ resolver := by
  unfold get_metadata
  rw [metadata_command_congr hvar, enabled_features_congr resolver hvar htok]

/-- C9: the pipeline is a deterministic function of the set of
environment variables and the resolver — two runs over environments that
contain the same variables (in any order, keys duplicate-free) produce
byte-identical artifacts, paths, and call traces.  In particular two runs
over the same unchanged environment coincide. -/
theorem pipeline_deterministic (e₁ e₂ : Env)
    (resolver : ResolverCall → ResolvedGraph)
    (hperm : e₁.vars.Perm e₂.vars)
    (hnd : (e₁.vars.map Prod.fst).Nodup) :
    collect_dependency_list e₁ resolver = collect_dependency_list e₂ resolver := by
  have hvar : ∀ n, e₁.var n = e₂.var n := fun n => lookupVar_perm hperm hnd n
  have htok := tokens_perm hperm
  unfold collect_dependency_list
  rw [get_metadata_congr resolver hvar htok,
    choose_compression_level_congr hvar, output_file_path_congr hvar]

/-- Witness for C9: the same four variables in two different orders. -/
theorem pipeline_deterministic_witness :
    collect_dependency_list
        ⟨[("CARGO_MANIFEST_DIR", "/m"), ("TARGET", "t"),
          ("PROFILE", "debug"), ("OUT_DIR", "/o")]⟩
        (fun _ => ⟨[⟨"rid", "root", "1.0.0", "path", [], [], []⟩],
          some ⟨some "rid"⟩⟩) =
      collect_dependency_list
        ⟨[("OUT_DIR", "/o"), ("PROFILE", "debug"),
          ("TARGET", "t"), ("CARGO_MANIFEST_DIR", "/m")]⟩
        (fun _ => ⟨[⟨"rid", "root", "1.0.0", "path", [], [], []⟩],
          some ⟨some "rid"⟩⟩) :=
  pipeline_deterministic _ _ _ (by decide) (by decide)
